import Mathlib

/-!
Verification of the Ampel-LSST-archive storage and ingestion core, as a shallow
embedding of the repository's Python sources.

Modules covered:
* `ampel/lsst/archive/avro.py` — block codec (`pack_records`, `extract_record`,
  `pack_blocks`), over a byte-level model of the Avro object-container format
  (zig-zag varint longs, one compressed frame per record, 16-byte sync marker).
* `ampel/lsst/archive/db.py` — dual-write coordinator (`insert_alert_chunk`,
  `store_alert_chunk`), the postgres upsert statements, and the result-export
  pipeline (`store_search_results`).
* `ampel/lsst/archive/update.py` — per-partition buffering of the stream ingestor.
* `ampel/lsst/archive/queries.py` — cone-search condition construction.
* `ampel/lsst/archive/server/streams.py` — the chunk claim/release/delete protocol.

Bytes are modelled as natural numbers; the schema-directed record serializer
(fastavro's schemaless writer/reader) and the compression codec are modelled as
abstract encode/decode pairs, with their round-trip contracts taken as explicit
hypotheses of the theorems that need them.
-/

namespace ArchiveSpec

/-- Constant `fastavro._read_common.SYNC_SIZE`: the Avro sync marker is 16 bytes. -/
def SYNC_SIZE : Nat := 16

/-- Constant `NSIDE = 1 << 16`, the storage resolution of the healpix spatial index
(`ampel/lsst/archive/models.py`). -/
def NSIDE : Nat := 65536

/-- Variable-length base-128 encoding, fuelled so that it reduces by
computation (the fuel bounds the number of division steps; `fuel ≥ n`
suffices and the fallback arm is unreachable then). -/
def varintFuel : Nat → Nat → List Nat
  | 0, n => [n]
  | fuel + 1, n =>
    if n < 128 then [n] else (n % 128 + 128) :: varintFuel fuel (n / 128)

/-- Variable-length base-128 encoding of a natural number (little-endian,
high bit of a byte set when more bytes follow), as used by Avro longs. -/
def varint (n : Nat) : List Nat := varintFuel n n

/-- Decoder for `varint`; returns the value and the unconsumed bytes. -/
def readVarint : List Nat → Option (Nat × List Nat)
  | [] => none
  | b :: rest =>
    if b < 128 then some (b, rest)
    else
      match readVarint rest with
      | some (m, rest') => some (m * 128 + (b - 128), rest')
      | none => none

/-- Avro long encoding of a non-negative count/size: zig-zag (`2 * n` for
`n ≥ 0`) followed by `varint`. -/
def encLong (n : Nat) : List Nat := varint (2 * n)

/-- Avro long decoder restricted to non-negative results: an odd zig-zag value
would decode to a negative long, which every consumer in the source rejects. -/
def readLong (bs : List Nat) : Option (Nat × List Nat) :=
  match readVarint bs with
  | none => none
  | some (m, rest) => if m % 2 = 0 then some (m / 2, rest) else none

/-- Abstract model of fastavro's schema-directed record serialization
(`schemaless_writer` / `schemaless_reader`): `decode` returns the record and
the unconsumed bytes.  Round-trip is a hypothesis of the theorems using it. -/
structure Serializer (α : Type) where
  encode : α → List Nat
  decode : List Nat → Option (α × List Nat)

/-- Abstract model of a compression codec (`BLOCK_WRITERS` / `BLOCK_READERS`).
Round-trip is a hypothesis of the theorems using it. -/
structure Codec where
  compress : List Nat → List Nat
  decompress : List Nat → Option (List Nat)

/-- The identity codec (models `null`; stands in for any codec in witnesses). -/
def idCodec : Codec := ⟨fun bs => bs, fun bs => some bs⟩

/-- A concrete serializer for naturals (an Avro `long` schema). -/
def natSerializer : Serializer Nat := ⟨encLong, readLong⟩

/-- One Avro file block holding exactly one record, as produced by
`fastavro.writer` with `sync_interval=0` (`pack_records` forces one record per
block): record count (= 1), compressed size, compressed payload, sync marker. -/
def avroBlock (S : Serializer α) (C : Codec) (sync : List Nat) (r : α) : List Nat :=
  let payload := C.compress (S.encode r)
  encLong 1 ++ encLong payload.length ++ payload ++ sync

/-- Byte ranges of consecutive blocks, as recovered by the read-back loop in
`pack_records` (`fastavro.block_reader` positions: each block ends right after
its sync marker). -/
def blockRanges (S : Serializer α) (C : Codec) (sync : List Nat) :
    Nat → List α → List (Nat × Nat)
  | _, [] => []
  | start, r :: rs =>
    let len := (avroBlock S C sync r).length
    (start, start + len) :: blockRanges S C sync (start + len) rs

/-- Model of `avro.pack_records`: serialize records into a single container
(header, then one block per record), returning the container bytes and the
half-open byte range of each record's block.  `header` stands for the container
header (magic, metadata, sync marker) written by `fastavro.writer`; ranges
start at the end of the header, exactly where `block_reader` leaves the file
position after parsing it. -/
def pack_records (S : Serializer α) (C : Codec) (header sync : List Nat)
    (records : List α) : List Nat × List (Nat × Nat) :=
  ((header ++ (records.map (avroBlock S C sync)).flatten),
    blockRanges S C sync header.length records)

/-- Slice `packed[start:stop]`, Python slice semantics on byte lists. -/
def listSlice (bs : List Nat) (start stop : Nat) : List Nat :=
  (bs.take stop).drop start

/-- Model of `avro.extract_record`: read the block's record count (must be 1),
read the compressed block, decompress it, and deserialize one record.  Any
failure (bad count, short read, codec or serializer failure) is `none`. -/
def extract_record (S : Serializer α) (C : Codec) (bs : List Nat) : Option α :=
  match readLong bs with
  | none => none
  | some (n, rest) =>
    if n ≠ 1 then none
    else
      match readLong rest with
      | none => none
      | some (sz, rest2) =>
        if rest2.length < sz then none
        else
          match C.decompress (rest2.take sz) with
          | none => none
          | some buf =>
            match S.decode buf with
            | none => none
            | some (a, _) => some a

/-- Model of `avro.pack_blocks`: write a fresh header carrying a newly
generated sync marker, then for each input byte range write all but its last
`SYNC_SIZE + 1` bytes followed by the new sync marker (`block[: -SYNC_SIZE - 1]`
in the source). -/
def pack_blocks (header2 sync2 : List Nat) (blocks : List (List Nat)) : List Nat :=
  header2 ++ (blocks.map (fun b => b.take (b.length - (SYNC_SIZE + 1)) ++ sync2)).flatten

/-- Deserialize `n` consecutive records from a decompressed block buffer
(the per-block record loop of fastavro's file reader). -/
def decodeN (S : Serializer α) : Nat → List Nat → Option (List α)
  | 0, _ => some []
  | n + 1, bs =>
    match S.decode bs with
    | none => none
    | some (a, rest) =>
      match decodeN S n rest with
      | none => none
      | some as_ => some (a :: as_)

/-- Fuelled block-by-block container decoder (fastavro's file reader after the
header): read count, read and decompress the block, deserialize `count`
records, check the 16-byte sync marker, continue. -/
def readBlocksAux (S : Serializer α) (C : Codec) (sync : List Nat) :
    Nat → List Nat → Option (List α)
  | _, [] => some []
  | 0, _ :: _ => none
  | fuel + 1, bs =>
    match readLong bs with
    | none => none
    | some (n, rest) =>
      match readLong rest with
      | none => none
      | some (sz, rest2) =>
        if rest2.length < sz then none
        else
          match C.decompress (rest2.take sz) with
          | none => none
          | some buf =>
            match decodeN S n buf with
            | none => none
            | some recs =>
              let rest3 := rest2.drop sz
              if rest3.take SYNC_SIZE = sync then
                match readBlocksAux S C sync fuel (rest3.drop SYNC_SIZE) with
                | none => none
                | some more => some (recs ++ more)
              else none

/-- Decode all records of a container body (the bytes after the header). -/
def readBlocks (S : Serializer α) (C : Codec) (sync bs : List Nat) : Option (List α) :=
  readBlocksAux S C sync bs.length bs

/-- A stand-in container header for concrete witnesses (its content is opaque
to the codec; only its length enters the range arithmetic). -/
def hdr0 : List Nat := [79, 98, 106, 1]

/-- A concrete 16-byte sync marker for witnesses. -/
def sync0 : List Nat := [9, 8, 7, 6, 5, 4, 3, 2, 1, 0, 9, 8, 7, 6, 5, 4]

/-- A second concrete 16-byte sync marker (the freshly generated marker of a
spliced container). -/
def sync1 : List Nat := [3, 3, 3, 3, 3, 3, 3, 3, 3, 3, 3, 3, 3, 3, 3, 3]

/-! ### Data model (`alert_packet/LsstV9_0Alert.py`, `models.py`)

Float-valued columns (`ra`, `dec`, MJD epochs) are carried opaquely; they are
modelled as rationals, which the embedded code never computes with. -/

/-- The fields of `LsstV9_0DiaSource` consumed by `Alert.from_record`. -/
structure DiaSourceRec where
  diaSourceId : Int
  diaObjectId : Option Int
  ssObjectId : Option Int
  midpointMjdTai : ℚ
  ra : ℚ
  dec : ℚ
deriving DecidableEq

/-- The fields of `LsstV9_0DiaObject` consumed by `DIAObject.from_record`. -/
structure DiaObjectRec where
  diaObjectId : Int
  validityStartMjdTai : ℚ
  firstDiaSourceMjdTai : Option ℚ
  lastDiaSourceMjdTai : Option ℚ
  nDiaSources : Int
  ra : ℚ
  dec : ℚ
deriving DecidableEq

/-- The fields of `LsstV9_0SsSource` consumed by `SSObject.from_record`. -/
structure SsSourceRec where
  ssObjectId : Option Int
deriving DecidableEq

/-- The fields of `LsstV9_0MPCORB` consumed by `SSObject.from_record`. -/
structure MPCORBRec where
  mpcDesignation : Option String
deriving DecidableEq

/-- An `LsstV9_0Alert` record as consumed by the archive index writers. -/
structure LSSTAlert where
  diaSource : DiaSourceRec
  diaObject : Option DiaObjectRec
  ssSource : Option SsSourceRec
  mpcorb : Option MPCORBRec
deriving DecidableEq

/-- Row of `models.Alert` (the record pointer). -/
structure Alert where
  id : Int
  diaobject_id : Option Int
  ssobject_id : Option Int
  midpointMjdTai : ℚ
  ra : ℚ
  dec : ℚ
  hpx : Nat
  avro_blob_id : Int
  avro_blob_start : Nat
  avro_blob_end : Nat
deriving DecidableEq

/-- Row of `models.DIAObject`.  `nDiaSources` is an `Option` because the upsert
guard `DIAObject.nDiaSources IS NULL` reads the stored column under SQL
three-valued logic. -/
structure DIAObject where
  id : Int
  validityStartMjdTai : ℚ
  firstDiaSourceMjdTai : Option ℚ
  lastDiaSourceMjdTai : Option ℚ
  nDiaSources : Option Int
  ra : ℚ
  dec : ℚ
  hpx : Nat
deriving DecidableEq

/-- Row of `models.SSObject`. -/
structure SSObject where
  id : Option Int
  designation : Option String
deriving DecidableEq

/-- Row of `models.AvroBlob`. -/
structure AvroBlob where
  id : Int
  schema_id : Nat
  uri : String
  count : Nat
  size : Nat
  refcount : Int
deriving DecidableEq

/-- Expression `diaSource["diaObjectId"] or None`: Python truthiness maps an id of 0 to
`None` as well. -/
def orNone : Option Int → Option Int
  | some 0 => none
  | v => v

/-- Model of `models.Alert.from_record`.  `lonlatToHealpix` models
`astropy_healpix.lonlat_to_healpix(..., nside=NSIDE, order="nested")`. -/
def Alert.from_record (lonlatToHealpix : ℚ → ℚ → Nat) (alert : LSSTAlert)
    (blob_id : Int) (blob_start blob_end : Nat) : Alert :=
  let d := alert.diaSource
  { id := d.diaSourceId
    diaobject_id := orNone d.diaObjectId
    ssobject_id := orNone d.ssObjectId
    midpointMjdTai := d.midpointMjdTai
    ra := d.ra
    dec := d.dec
    hpx := lonlatToHealpix d.ra d.dec
    avro_blob_id := blob_id
    avro_blob_start := blob_start
    avro_blob_end := blob_end }

/-- Model of `models.DIAObject.from_record`. -/
def DIAObject.from_record (lonlatToHealpix : ℚ → ℚ → Nat) (r : DiaObjectRec) : DIAObject :=
  { id := r.diaObjectId
    validityStartMjdTai := r.validityStartMjdTai
    firstDiaSourceMjdTai := r.firstDiaSourceMjdTai
    lastDiaSourceMjdTai := r.lastDiaSourceMjdTai
    nDiaSources := some r.nDiaSources
    ra := r.ra
    dec := r.dec
    hpx := lonlatToHealpix r.ra r.dec }

/-- Model of `models.SSObject.from_record`. -/
def SSObject.from_record (s : SsSourceRec) (mpcorb : Option MPCORBRec) : SSObject :=
  { id := s.ssObjectId
    designation := match mpcorb with | some m => m.mpcDesignation | none => none }

/-! ### The compiled upsert statements (`db._insert_*`), as table transformers.
Tables are maps from the conflict key to the stored row. -/

/-- SQL `excluded.nDiaSources > DIAObject.nDiaSources` under three-valued
logic: a comparison with NULL is unknown and does not fire the update. -/
def sqlGtNullable : Option Int → Option Int → Bool
  | some a, some b => a > b
  | _, _ => false

/-- Model of `db._insert_diaobjects`: `ON CONFLICT (id) DO UPDATE SET <every field>
WHERE DIAObject.nDiaSources IS NULL OR excluded.nDiaSources >
DIAObject.nDiaSources`. -/
def insert_diaobjects (tbl : Int → Option DIAObject) (r : DIAObject) :
    Int → Option DIAObject := fun i =>
  if i = r.id then
    match tbl r.id with
    | none => some r
    | some old =>
      if old.nDiaSources.isNone || sqlGtNullable r.nDiaSources old.nDiaSources then some r
      else some old
  else tbl i

/-- Model of `db._insert_ssobjects`: `ON CONFLICT DO NOTHING` (first write wins). -/
def insert_ssobjects (tbl : Option Int → Option SSObject) (r : SSObject) :
    Option Int → Option SSObject := fun i =>
  if i = r.id then
    match tbl r.id with
    | none => some r
    | some old => some old
  else tbl i

/-- Model of `db._insert_alerts`: `ON CONFLICT (id) DO UPDATE SET` restricted to
`avro_blob_id`, `avro_blob_start`, `avro_blob_end`, `diaobject_id`,
`ssobject_id`; every other stored column is left as it was. -/
def insert_alerts (tbl : Int → Option Alert) (r : Alert) : Int → Option Alert := fun i =>
  if i = r.id then
    match tbl r.id with
    | none => some r
    | some old => some { old with
        avro_blob_id := r.avro_blob_id
        avro_blob_start := r.avro_blob_start
        avro_blob_end := r.avro_blob_end
        diaobject_id := r.diaobject_id
        ssobject_id := r.ssobject_id }
  else tbl i

/-- The relational index: registered schema ids plus the four tables written
by `insert_alert_chunk`'s transaction. -/
structure IndexDB where
  schemas : List Nat
  blobs : List AvroBlob
  diaobjects : Int → Option DIAObject
  ssobjects : Option Int → Option SSObject
  alerts : Int → Option Alert

/-- Object store plus relational index — the two sides of the dual write. -/
structure ArchiveState where
  store : String → Option (List Nat)
  db : IndexDB

/-- S3 `Object.put`. -/
def putObject (store : String → Option (List Nat)) (key : String) (blob : List Nat) :
    String → Option (List Nat) :=
  fun k => if k = key then some blob else store k

/-- S3 `Object.delete`. -/
def deleteObject (store : String → Option (List Nat)) (key : String) :
    String → Option (List Nat) :=
  fun k => if k = key then none else store k

/-- The injectable failure points of `insert_alert_chunk` / `store_alert_chunk`:
the object-store put, the blob-row flush inside `store_alert_chunk`, each of the
three upsert statements, the final flush, and the transaction commit.
`schemaMissing` is the `get_schema` KeyError (raised before anything is
written). -/
inductive FailPoint
  | schemaMissing | objectPut | blobFlush | diaInsert | ssInsert | alertInsert
  | finalFlush | txCommit
deriving DecidableEq

/-- Outcome of one `insert_alert_chunk` call: the propagated error (if any),
the resulting state, and whether the `on_complete` callback ran. -/
structure IngestResult where
  error : Option FailPoint
  state : ArchiveState
  completed : Bool

/-- Model of `db.insert_alert_chunk` (with `db.store_alert_chunk` inlined at
its call site), with an injectable failure point.  The session buffers the
blob-row insert and the three upserts; they reach the committed index only at
the final commit, so every failure after the object-store put leaves the index
as it was, deletes the just-written object, and re-raises.  `nextBlobId`
models the id the database sequence assigns to the flushed blob row. -/
def insert_alert_chunk (S : Serializer LSSTAlert) (C : Codec)
    (header sync : List Nat) (lonlatToHealpix : ℚ → ℚ → Nat) (nextBlobId : Int)
    (fail : Option FailPoint) (st : ArchiveState)
    (schema_id : Nat) (key : String) (alerts : List LSSTAlert) : IngestResult :=
  if schema_id ∈ st.db.schemas then
    let packed := pack_records S C header sync alerts
    let name := key ++ ".avro"
    let blob_record : AvroBlob :=
      ⟨nextBlobId, schema_id, name, alerts.length, packed.1.length, 0⟩
    if fail = some .objectPut then ⟨some .objectPut, st, false⟩
    else
      let store1 := putObject st.store name packed.1
      let onError : FailPoint → IngestResult := fun fp =>
        ⟨some fp, ⟨deleteObject store1 name, st.db⟩, false⟩
      if fail = some .blobFlush then onError .blobFlush
      else if fail = some .diaInsert then onError .diaInsert
      else if fail = some .ssInsert then onError .ssInsert
      else if fail = some .alertInsert then onError .alertInsert
      else if fail = some .finalFlush then onError .finalFlush
      else if fail = some .txCommit then onError .txCommit
      else
        let db1 : IndexDB :=
          { schemas := st.db.schemas
            blobs := st.db.blobs ++ [blob_record]
            diaobjects :=
              (alerts.filterMap (fun a => a.diaObject.map (DIAObject.from_record lonlatToHealpix))).foldl
                insert_diaobjects st.db.diaobjects
            ssobjects :=
              (alerts.filterMap (fun a => a.ssSource.map (fun s => SSObject.from_record s a.mpcorb))).foldl
                insert_ssobjects st.db.ssobjects
            alerts :=
              ((alerts.zip packed.2).map (fun p =>
                Alert.from_record lonlatToHealpix p.1 nextBlobId p.2.1 p.2.2)).foldl
                insert_alerts st.db.alerts }
        ⟨none, ⟨store1, db1⟩, true⟩
  else ⟨some .schemaMissing, st, false⟩

/-- A trivial serializer for whole alerts, for witnesses (the dual-write
properties hold for every serializer). -/
def trivAlertSerializer : Serializer LSSTAlert := ⟨fun _ => [], fun _ => none⟩

/-- A concrete alert for witnesses. -/
def alertW : LSSTAlert :=
  ⟨⟨1, some 2, none, 0, 0, 0⟩, some ⟨2, 0, none, none, 7, 0, 0⟩, none, none⟩

/-- A concrete initial archive state for witnesses: schema 900 registered,
empty store and tables. -/
def archiveStateW : ArchiveState :=
  ⟨fun _ => none, ⟨[900], [], fun _ => none, fun _ => none, fun _ => none⟩⟩

/-! ### Result export pipeline (`db.store_search_results`) -/

/-- One row of the stream driving the export loop: what
`get_blobs_with_condition` yields (`uri`, `avro_blob_start`, `avro_blob_end`,
`schema_id`). -/
structure SourceRow where
  uri : String
  start : Nat
  stop : Nat
  schema_id : Nat
deriving DecidableEq

/-- One flushed result chunk.  `schema_id` is the `ResultBlob` row's
`schema_id` (`last_schema_id if last_schema_id is not None else schema_id`);
`pack_schema_id` is the schema handed to `pack_blocks` (the loop variable
`schema_id` at flush time); `members` are the source rows whose fetched bodies
were accumulated into the chunk (the bytes themselves are opaque here — which
record lands in which chunk is what the properties concern). -/
structure ResultChunk where
  schema_id : Nat
  pack_schema_id : Nat
  chunk : Nat
  members : List SourceRow
deriving DecidableEq

/-- The loop of `db.store_search_results`, mirrored faithfully: `count` starts
at 1, is reset to 1 on flush, and is never otherwise advanced; the row whose
arrival triggers a flush has already been appended to `bodies` when `flush()`
runs; at stream end a non-empty remainder is flushed with the loop variables'
final values. -/
def exportLoop (chunk_size : Nat) (bodies : List SourceRow)
    (last_schema_id : Option Nat) (count chunk : Nat) :
    List SourceRow → List ResultChunk
  | [] =>
    if bodies.isEmpty then []
    else [⟨last_schema_id.getD 0, last_schema_id.getD 0, chunk, bodies⟩]
  | row :: rest =>
    let bodies1 := bodies ++ [row]
    if (last_schema_id ≠ none ∧ last_schema_id ≠ some row.schema_id) ∨ chunk_size ≤ count then
      ⟨last_schema_id.getD row.schema_id, row.schema_id, chunk, bodies1⟩
        :: exportLoop chunk_size [] (some row.schema_id) 1 (chunk + 1) rest
    else
      exportLoop chunk_size bodies1 (some row.schema_id) count chunk rest

/-- Model of `db.store_search_results`: run the export loop over the streamed
rows with the source's initial state (`bodies = []`, `last_schema_id = None`,
`count = 1`, `chunk = 0`). -/
def store_search_results (chunk_size : Nat) (rows : List SourceRow) : List ResultChunk :=
  exportLoop chunk_size [] none 1 0 rows

/-- The five-record export stream of the spec's test property: schemas
`[1, 1, 1, 2, 2]` (a schema change after the third record). -/
def exportRowsExample : List SourceRow :=
  [⟨"a", 0, 19, 1⟩, ⟨"a", 19, 38, 1⟩, ⟨"a", 38, 57, 1⟩, ⟨"b", 0, 19, 2⟩, ⟨"b", 19, 38, 2⟩]

/-! ### Stream ingestor (`update.py`) -/

/-- A deserialized broker message: topic, partition, offset, and the
`(schema_id, schema_str, record)` triple from `AvroWithSchemaDeserializer`. -/
structure KMessage (ρ : Type) where
  topic : String
  partition : Nat
  offset : Nat
  schema_id : Nat
  schema_str : String
  record : ρ

/-- Model of `update.PartitionBuffer` (offsets carried as plain offsets; timestamps as
integers). -/
structure PartitionBuffer (ρ : Type) where
  records : List ρ
  schema_id : Nat
  schema_str : String
  start_offset : Nat
  end_offset : Nat
  last_seen : Int

/-- What `flush` hands to `insert_alert_chunk`: buffered records, their schema,
and the topic/partition/offset-range that derives the destination key. -/
structure FlushedChunk (ρ : Type) where
  topic : String
  partition : Nat
  schema_id : Nat
  start_offset : Nat
  end_offset : Nat
  records : List ρ

/-- The chunk flushed for buffer `b` of partition `key`. -/
def flushChunk (key : String × Nat) (b : PartitionBuffer ρ) : FlushedChunk ρ :=
  ⟨key.1, key.2, b.schema_id, b.start_offset, b.end_offset, b.records⟩

/-- The message-handling branch of the polling loop in `update.main`: if the
partition's buffer is full or its schema differs from the message's, flush it
(popping it from the map); then append to the (possibly absent) buffer or open
a fresh one holding the message.  Returns the new buffer map and the flushed
chunk, if any. -/
def handleMessage (chunk_size : Nat)
    (buffers : String × Nat → Option (PartitionBuffer ρ))
    (msg : KMessage ρ) (now : Int) :
    (String × Nat → Option (PartitionBuffer ρ)) × Option (FlushedChunk ρ) :=
  let key := (msg.topic, msg.partition)
  let step1 : (String × Nat → Option (PartitionBuffer ρ)) × Option (FlushedChunk ρ) :=
    match buffers key with
    | some b =>
      if chunk_size ≤ b.records.length ∨ b.schema_id ≠ msg.schema_id then
        (fun k => if k = key then none else buffers k, some (flushChunk key b))
      else (buffers, none)
    | none => (buffers, none)
  match step1.1 key with
  | some b =>
    (fun k => if k = key then
        some { b with records := b.records ++ [msg.record],
                      end_offset := msg.offset, last_seen := now }
      else step1.1 k,
     step1.2)
  | none =>
    (fun k => if k = key then
        some ⟨[msg.record], msg.schema_id, msg.schema_str, msg.offset, msg.offset, now⟩
      else step1.1 k,
     step1.2)

/-! ### Chunk claim protocol (`server/streams.py`) -/

/-- Row of `models.ResultBlob`. -/
structure ResultBlob where
  id : Int
  schema_id : Nat
  group_id : Int
  uri : String
  count : Nat
  size : Nat
  issued : Option Int
deriving DecidableEq

/-- The state the stream endpoints act on: the `ResultBlob` rows and the
object store. -/
structure StreamsState where
  rows : List ResultBlob
  store : String → Option (List Nat)

/-- The row predicate of the claim query: same group, `issued IS NULL`, and —
`FOR UPDATE SKIP LOCKED` — the row is not locked by a concurrent transaction
(the `locked` id list). -/
def claimPred (locked : List Int) (group_id : Int) (r : ResultBlob) : Bool :=
  decide (r.group_id = group_id) && r.issued.isNone && decide (r.id ∉ locked)

/-- Model of `stream_claim_chunk`: select one chunk of the group with null
`issued`, skipping locked rows, set its `issued` to now and return it; `none`
models the 204 response. -/
def stream_claim_chunk (locked : List Int) (now : Int) (st : StreamsState)
    (group_id : Int) : Option ResultBlob × StreamsState :=
  match st.rows.find? (claimPred locked group_id) with
  | none => (none, st)
  | some r =>
    (some { r with issued := some now },
     ⟨st.rows.map (fun q => if q.id = r.id then { q with issued := some now } else q),
      st.store⟩)

/-- Model of `stream_release_chunk`: clear `issued` on the given chunk. -/
def stream_release_chunk (st : StreamsState) (chunk_id : Int) : StreamsState :=
  ⟨st.rows.map (fun q => if q.id = chunk_id then { q with issued := none } else q),
   st.store⟩

/-- Model of `stream_delete_chunk`: delete the chunk's object from the store,
then its row. -/
def stream_delete_chunk (st : StreamsState) (chunk_id : Int) : StreamsState :=
  match st.rows.find? (fun q => decide (q.id = chunk_id)) with
  | none => st
  | some blob =>
    ⟨st.rows.filter (fun q => decide (q.id ≠ chunk_id)),
     deleteObject st.store blob.uri⟩

/-! ### Cone search (`queries.cone_search_condition`) -/

/-- Modelled from the spec: the output contract of
`healpix_cone_search.ranges_for_cone` — the module is absent from the sources;
spec §4.2 specifies it as returning a resolution no finer than the storage
resolution together with half-open cell-id ranges at that resolution that
fully cover the cone (an over-approximation).  `cellIdAt n` is the nested
healpix discretization at resolution `n`, and `withinRadius` the exact
great-circle-distance predicate `earth_distance(center, loc) < radius`. -/
structure RangesForCone (Point : Type) (cellIdAt : Nat → Point → Nat)
    (withinRadius : Point → Bool) where
  nside : Nat
  ranges : List (Nat × Nat)
  nside_pos : 0 < nside
  nside_dvd : nside ∣ NSIDE
  covers : ∀ p, withinRadius p = true →
    ∃ lr ∈ ranges, lr.1 ≤ cellIdAt nside p ∧ cellIdAt nside p < lr.2

/-- Model of `queries.cone_search_condition` applied to a stored point: the
returned ranges scaled by `(NSIDE // nside) ** 2` are OR-ed together against
the point's stored `hpx` cell id, and the exact-distance predicate is
conjoined. -/
def cone_search_condition (nside : Nat) (ranges : List (Nat × Nat))
    (withinRadius : Point → Bool) (hpx : Point → Nat) (p : Point) : Bool :=
  (ranges.any fun lr =>
    decide (lr.1 * (NSIDE / nside) ^ 2 ≤ hpx p) &&
    decide (hpx p < lr.2 * (NSIDE / nside) ^ 2))
  && withinRadius p

end ArchiveSpec

namespace ArchiveSpec

theorem readVarint_varintFuel (fuel n : Nat) (hn : n ≤ fuel) (rest : List Nat) :
    readVarint (varintFuel fuel n ++ rest) = some (n, rest) := by
  induction fuel generalizing n with
  | zero =>
    have : n = 0 := by omega
    subst this
    simp [varintFuel, readVarint]
  | succ f ih =>
    rw [varintFuel]
    split
    · simp [readVarint, *]
    · rename_i h
      rw [List.cons_append, readVarint]
      rw [if_neg (by omega)]
      rw [ih (n / 128) (by omega)]
      have heq : n / 128 * 128 + (n % 128 + 128 - 128) = n := by omega
      simp only [heq]

theorem readVarint_varint (n : Nat) (rest : List Nat) :
    readVarint (varint n ++ rest) = some (n, rest) :=
  readVarint_varintFuel n n (Nat.le_refl n) rest

theorem readLong_encLong (n : Nat) (rest : List Nat) :
    readLong (encLong n ++ rest) = some (n, rest) := by
  rw [encLong, readLong, readVarint_varint]
  have h2 : 2 * n / 2 = n := by omega
  simp [h2]

theorem take_append_length (xs ys : List Nat) : (xs ++ ys).take xs.length = xs := by
  simp

theorem drop_append_length (xs ys : List Nat) : (xs ++ ys).drop xs.length = ys := by
  simp

/-- Slicing a concatenation at the middle segment's boundaries recovers it. -/
theorem listSlice_middle (xs ys zs : List Nat) :
    listSlice (xs ++ ys ++ zs) xs.length (xs.length + ys.length) = ys := by
  rw [listSlice]
  have h1 : (xs ++ ys ++ zs).take (xs.length + ys.length) = xs ++ ys := by
    have h2 : xs.length + ys.length = (xs ++ ys).length := (List.length_append xs ys).symm
    rw [h2, take_append_length]
  rw [h1, drop_append_length]

/-- Extracting an in-isolation block yields its record. -/
theorem extract_record_avroBlock (S : Serializer α) (C : Codec)
    (hS : ∀ a rest, S.decode (S.encode a ++ rest) = some (a, rest))
    (hC : ∀ bs, C.decompress (C.compress bs) = some bs)
    (sync : List Nat) (r : α) :
    extract_record S C (avroBlock S C sync r) = some r := by
  have hdec := hS r []
  rw [List.append_nil] at hdec
  have hlen : ¬ ((C.compress (S.encode r) ++ sync).length < (C.compress (S.encode r)).length) := by
    rw [List.length_append]; omega
  simp [extract_record, avroBlock, List.append_assoc, readLong_encLong, hlen, hC, hdec,
    take_append_length]

theorem blockRanges_length (S : Serializer α) (C : Codec) (sync : List Nat)
    (start : Nat) (records : List α) :
    (blockRanges S C sync start records).length = records.length := by
  induction records generalizing start with
  | nil => rfl
  | cons r rs ih => simp [blockRanges, ih]

/-- The slice of the container at the `i`-th recovered range is exactly the
`i`-th record's block. -/
theorem listSlice_at_blockRange (S : Serializer α) (C : Codec) (sync : List Nat)
    (records : List α) (pre : List Nat) (i : Nat)
    (hi : i < records.length) (s e : Nat)
    (hse : (blockRanges S C sync pre.length records)[i]? = some (s, e)) :
    listSlice (pre ++ (records.map (avroBlock S C sync)).flatten) s e
      = avroBlock S C sync (records.get ⟨i, hi⟩) := by
  induction records generalizing pre i with
  | nil => exact absurd hi (by simp)
  | cons r rs ih =>
    cases i with
    | zero =>
      simp only [blockRanges, List.getElem?_cons_zero, Option.some.injEq, Prod.mk.injEq] at hse
      obtain ⟨hs, he⟩ := hse
      subst hs; subst he
      simp only [List.get, List.map_cons, List.flatten_cons, ← List.append_assoc]
      exact listSlice_middle pre (avroBlock S C sync r) (List.map (avroBlock S C sync) rs).flatten
    | succ j =>
      have hj : j < rs.length := by simpa using hi
      have hbs : pre ++ (List.map (avroBlock S C sync) (r :: rs)).flatten
          = (pre ++ avroBlock S C sync r) ++ (List.map (avroBlock S C sync) rs).flatten := by
        simp [List.append_assoc]
      have hse2 : (blockRanges S C sync (pre ++ avroBlock S C sync r).length rs)[j]?
          = some (s, e) := by
        rw [List.length_append]
        simpa [blockRanges] using hse
      have hmain := ih (pre ++ avroBlock S C sync r) j hj hse2
      rw [hbs]
      simpa using hmain

/-- C2: For every schema-directed serializer, codec, header, sync marker and
record list, packing yields one byte range per record, in input order, and
extracting the container slice at `ranges[i]` deserializes to a value equal to
`records[i]` (`pack_records` / `extract_record` round-trip). -/
theorem pack_records_extract_roundtrip (S : Serializer α) (C : Codec)
    (hS : ∀ a rest, S.decode (S.encode a ++ rest) = some (a, rest))
    (hC : ∀ bs, C.decompress (C.compress bs) = some bs)
    (header sync : List Nat) (records : List α) (i : Nat)
    (hi : i < records.length)
    (hr : i < (pack_records S C header sync records).2.length) :
    extract_record S C
        (listSlice (pack_records S C header sync records).1
          ((pack_records S C header sync records).2.get ⟨i, hr⟩).1
          ((pack_records S C header sync records).2.get ⟨i, hr⟩).2)
      = some (records.get ⟨i, hi⟩) := by
  have hr' : i < (blockRanges S C sync header.length records).length := by
    simpa [pack_records] using hr
  have hse : (blockRanges S C sync header.length records)[i]?
      = some (((pack_records S C header sync records).2.get ⟨i, hr⟩).1,
              ((pack_records S C header sync records).2.get ⟨i, hr⟩).2) := by
    simp only [pack_records]
    rw [List.getElem?_eq_getElem hr']
    simp [List.get_eq_getElem]
  have h := listSlice_at_blockRange S C sync records header i hi _ _ hse
  simp only [pack_records] at h ⊢
  rw [h]
  exact extract_record_avroBlock S C hS hC sync _

theorem encLong_one : encLong 1 = [2] := rfl

theorem readBlocksAux_nil (S : Serializer α) (C : Codec) (sync : List Nat) (fuel : Nat) :
    readBlocksAux S C sync fuel [] = some [] := by
  cases fuel <;> rfl

/-- Decoding the block section of a packed container recovers the records,
for any sufficient fuel. -/
theorem readBlocksAux_packed (S : Serializer α) (C : Codec)
    (hS : ∀ a rest, S.decode (S.encode a ++ rest) = some (a, rest))
    (hC : ∀ bs, C.decompress (C.compress bs) = some bs)
    (sync : List Nat) (hsync : sync.length = SYNC_SIZE)
    (rs : List α) (fuel : Nat)
    (hfuel : ((rs.map (avroBlock S C sync)).flatten).length ≤ fuel) :
    readBlocksAux S C sync fuel (rs.map (avroBlock S C sync)).flatten = some rs := by
  induction rs generalizing fuel with
  | nil => simpa using readBlocksAux_nil S C sync fuel
  | cons r rs ih =>
    have hblk : (List.map (avroBlock S C sync) (r :: rs)).flatten
        = 2 :: (encLong (C.compress (S.encode r)).length ++
            (C.compress (S.encode r) ++ (sync ++ (List.map (avroBlock S C sync) rs).flatten))) := by
      simp [avroBlock, encLong_one, List.append_assoc]
    cases fuel with
    | zero =>
      rw [hblk] at hfuel
      simp at hfuel
    | succ f =>
      rw [hblk, readBlocksAux]
      have h1 : readLong (2 :: (encLong (C.compress (S.encode r)).length ++
          (C.compress (S.encode r) ++ (sync ++ (List.map (avroBlock S C sync) rs).flatten))))
          = some (1, encLong (C.compress (S.encode r)).length ++
            (C.compress (S.encode r) ++ (sync ++ (List.map (avroBlock S C sync) rs).flatten))) :=
        readLong_encLong 1 _
      have h2 : ¬ ((C.compress (S.encode r) ++ (sync ++ (List.map (avroBlock S C sync) rs).flatten)).length
          < (C.compress (S.encode r)).length) := by
        rw [List.length_append]; omega
      have hdec := hS r []
      rw [List.append_nil] at hdec
      have h3 : decodeN S 1 (S.encode r) = some [r] := by
        simp [decodeN, hdec]
      have h4 : (sync ++ (List.map (avroBlock S C sync) rs).flatten).take SYNC_SIZE = sync := by
        rw [← hsync, take_append_length]
      have h5 : (sync ++ (List.map (avroBlock S C sync) rs).flatten).drop SYNC_SIZE
          = (List.map (avroBlock S C sync) rs).flatten := by
        rw [← hsync, drop_append_length]
      have hrest : (List.map (avroBlock S C sync) rs).flatten.length ≤ f := by
        rw [hblk] at hfuel
        simp only [List.length_cons, List.length_append] at hfuel
        omega
      simp only [h1, readLong_encLong, if_neg h2, take_append_length, hC, h3,
        drop_append_length, if_pos h4, h5, ih f hrest]
      all_goals simp

/-- Stripping the trailing 17 bytes of a frame extended by one byte removes the
extra byte and the source sync marker; appending the fresh marker rebuilds the
frame under the new marker, payload untouched. -/
theorem strip_extended_frame (S : Serializer α) (C : Codec) (sync sync2 : List Nat)
    (hsync : sync.length = SYNC_SIZE) (r : α) (x : Nat) :
    (avroBlock S C sync r ++ [x]).take ((avroBlock S C sync r ++ [x]).length - (SYNC_SIZE + 1))
        ++ sync2
      = avroBlock S C sync2 r := by
  have hsplit : avroBlock S C sync r ++ [x]
      = (encLong 1 ++ encLong (C.compress (S.encode r)).length ++ C.compress (S.encode r))
        ++ (sync ++ [x]) := by
    simp [avroBlock, List.append_assoc]
  have hlen : (avroBlock S C sync r ++ [x]).length - (SYNC_SIZE + 1)
      = (encLong 1 ++ encLong (C.compress (S.encode r)).length ++ C.compress (S.encode r)).length := by
    rw [hsplit]
    simp [hsync]
    omega
  rw [hlen, hsplit, take_append_length]
  simp [avroBlock, List.append_assoc]

/-- Applying `pack_blocks` to frames each extended by the byte that follows them
in their source container (the extra byte delivered by an inclusive-end ranged
read) rebuilds exactly the packed block section under the fresh sync marker. -/
theorem pack_blocks_extended (S : Serializer α) (C : Codec) (header2 sync2 : List Nat)
    (ps : List (α × List Nat × Nat))
    (hsyncs : ∀ p ∈ ps, p.2.1.length = SYNC_SIZE) :
    pack_blocks header2 sync2 (ps.map fun p => avroBlock S C p.2.1 p.1 ++ [p.2.2])
      = header2 ++ ((ps.map fun p => avroBlock S C sync2 p.1).flatten) := by
  rw [pack_blocks, List.map_map]
  congr 1
  congr 1
  apply List.map_congr_left
  intro p hp
  simp only [Function.comp_apply]
  exact strip_extended_frame S C p.2.1 sync2 (hsyncs p hp) p.1 p.2.2

/-- C5 (amended): Splicing byte ranges each consisting of one frame from a
`pack_records` container together with the single byte that follows it (as an
inclusive-end ranged read of the recorded `[start, end)` offsets returns)
emits a new container under the single freshly generated sync marker, every
record's compressed payload carried over byte-for-byte, and that container
decodes record by record to the concatenation of the source records. -/
theorem pack_blocks_splice_roundtrip (S : Serializer α) (C : Codec)
    (hS : ∀ a rest, S.decode (S.encode a ++ rest) = some (a, rest))
    (hC : ∀ bs, C.decompress (C.compress bs) = some bs)
    (header2 sync2 : List Nat) (hsync2 : sync2.length = SYNC_SIZE)
    (ps : List (α × List Nat × Nat))
    (hsyncs : ∀ p ∈ ps, p.2.1.length = SYNC_SIZE) :
    pack_blocks header2 sync2 (ps.map fun p => avroBlock S C p.2.1 p.1 ++ [p.2.2])
        = header2 ++ ((ps.map fun p => avroBlock S C sync2 p.1).flatten)
    ∧ readBlocks S C sync2
        ((pack_blocks header2 sync2
          (ps.map fun p => avroBlock S C p.2.1 p.1 ++ [p.2.2])).drop header2.length)
        = some (ps.map fun p => p.1) := by
  have hext := pack_blocks_extended S C header2 sync2 ps hsyncs
  refine ⟨hext, ?_⟩
  rw [hext, drop_append_length]
  have hmm : (ps.map fun p => avroBlock S C sync2 p.1)
      = (ps.map fun p => p.1).map (avroBlock S C sync2) := by
    rw [List.map_map]; rfl
  rw [readBlocks, hmm]
  exact readBlocksAux_packed S C hS hC sync2 hsync2 _ _ (Nat.le_refl _)

/-- Closed witness for the amended splice round-trip, mixing frames drawn from
two containers with distinct source sync markers. -/
theorem pack_blocks_splice_roundtrip_witness :
    readBlocks natSerializer idCodec sync1
        ((pack_blocks hdr0 sync1
          (([(5, (sync0, 77)), (300, (sync1, 0))] : List (Nat × List Nat × Nat)).map
            fun p => avroBlock natSerializer idCodec p.2.1 p.1 ++ [p.2.2])).drop hdr0.length)
      = some [5, 300] := by
  have h := pack_blocks_splice_roundtrip natSerializer idCodec
    (fun a rest => readLong_encLong a rest) (fun _ => rfl)
    hdr0 sync1 (by decide) [(5, (sync0, 77)), (300, (sync1, 0))] (by decide)
  simpa using h.2

/-- Counterexample to C5 as stated: splicing the exact `[start, end)` byte
ranges recorded by `pack_records` (each ending with its sync marker, with no
following byte) corrupts the frame — `pack_blocks` drops `SYNC_SIZE + 1` bytes,
one of which is then a payload byte — and the spliced container no longer
decodes to the source records. -/
theorem pack_blocks_exact_ranges_corrupt :
    readBlocks natSerializer idCodec sync1
        ((pack_blocks hdr0 sync1
          [listSlice (pack_records natSerializer idCodec hdr0 sync0 [0]).1
            ((pack_records natSerializer idCodec hdr0 sync0 [0]).2.get ⟨0, by decide⟩).1
            ((pack_records natSerializer idCodec hdr0 sync0 [0]).2.get ⟨0, by decide⟩).2]).drop
          hdr0.length)
      ≠ some [0] := by decide

/-- Closed witness for the `pack_records` / `extract_record` round-trip at a
concrete record list, index and codec. -/
theorem pack_records_extract_roundtrip_witness :
    extract_record natSerializer idCodec
        (listSlice (pack_records natSerializer idCodec hdr0 sync0 [5, 0, 300]).1
          ((pack_records natSerializer idCodec hdr0 sync0 [5, 0, 300]).2.get
            ⟨1, by decide⟩).1
          ((pack_records natSerializer idCodec hdr0 sync0 [5, 0, 300]).2.get
            ⟨1, by decide⟩).2)
      = some 0 :=
  pack_records_extract_roundtrip natSerializer idCodec
    (fun a rest => readLong_encLong a rest) (fun _ => rfl)
    hdr0 sync0 [5, 0, 300] 1 (by decide) (by decide)

/-- C3 (evaluating the code at the failing input): For `chunk_size = 2` and
five matching records with a schema change after record 3, the loop emits the
chunks `[1,2,3,4]` and `[5]` — not `[1,2]`, `[3]`, `[4,5]` as specified: the
`count` accumulator is initialized to 1 and reset to 1 on flush but never
incremented, so the size-based flush can never fire for `chunk_size ≥ 2`, and
the schema-boundary flush runs only after the differing-schema record has
already been appended. -/
theorem store_search_results_misbatches :
    (store_search_results 2 exportRowsExample).map ResultChunk.members
      = [[⟨"a", 0, 19, 1⟩, ⟨"a", 19, 38, 1⟩, ⟨"a", 38, 57, 1⟩, ⟨"b", 0, 19, 2⟩],
         [⟨"b", 19, 38, 2⟩]]
    ∧ (store_search_results 2 exportRowsExample).map ResultChunk.members
      ≠ [[⟨"a", 0, 19, 1⟩, ⟨"a", 19, 38, 1⟩], [⟨"a", 38, 57, 1⟩],
         [⟨"b", 0, 19, 2⟩, ⟨"b", 19, 38, 2⟩]] := by
  constructor <;> decide

/-- C4 (evaluating the code at the failing input): The first chunk emitted
for the five-record stream with schemas `[1,1,1,2,2]` at `chunk_size = 2` is
recorded with `schema_id = 1` yet contains the schema-2 record (appended before
the schema-boundary flush ran), and its blob was packed under schema 2: the
schema-homogeneity invariant does not hold. -/
theorem store_search_results_schema_mixed :
    ((store_search_results 2 exportRowsExample).get ⟨0, by decide⟩).schema_id = 1
    ∧ (⟨"b", 0, 19, 2⟩ : SourceRow)
        ∈ ((store_search_results 2 exportRowsExample).get ⟨0, by decide⟩).members
    ∧ ((store_search_results 2 exportRowsExample).get ⟨0, by decide⟩).pack_schema_id = 2 := by
  refine ⟨by decide, by decide, by decide⟩

/-- C7: The object-aggregate upsert is monotonic in detection count:
with a fresh id, ingesting the count-5 aggregate and then the count-3 one
leaves the count-5 row stored; ingesting 3 then 5 updates the row to the
count-5 values; and a stored aggregate whose detection count is null is always
replaced. -/
theorem insert_diaobjects_monotonic (tbl : Int → Option DIAObject)
    (r5 r3 : DIAObject) (hid : r3.id = r5.id)
    (h5 : r5.nDiaSources = some 5) (h3 : r3.nDiaSources = some 3)
    (hfresh : tbl r5.id = none) :
    (insert_diaobjects (insert_diaobjects tbl r5) r3) r5.id = some r5
    ∧ (insert_diaobjects (insert_diaobjects tbl r3) r5) r5.id = some r5
    ∧ (∀ (t : Int → Option DIAObject) (old r : DIAObject),
        t r.id = some old → old.nDiaSources = none →
        insert_diaobjects t r r.id = some r) := by
  refine ⟨?_, ?_, ?_⟩
  · simp [insert_diaobjects, hid, hfresh, h5, h3, sqlGtNullable]
  · simp [insert_diaobjects, hid, hfresh, h5, h3, sqlGtNullable]
  · intro t old r hold hnull
    simp [insert_diaobjects, hold, hnull]

/-- Closed witness for the monotonic aggregate upsert at concrete rows. -/
theorem insert_diaobjects_monotonic_witness :
    (insert_diaobjects (insert_diaobjects (fun _ => none)
        ⟨2, 0, none, none, some 5, 0, 0, 0⟩) ⟨2, 1, none, none, some 3, 1, 1, 1⟩) 2
      = some ⟨2, 0, none, none, some 5, 0, 0, 0⟩
    ∧ (insert_diaobjects (insert_diaobjects (fun _ => none)
        ⟨2, 1, none, none, some 3, 1, 1, 1⟩) ⟨2, 0, none, none, some 5, 0, 0, 0⟩) 2
      = some ⟨2, 0, none, none, some 5, 0, 0, 0⟩ := by
  have h := insert_diaobjects_monotonic (fun _ => none)
    ⟨2, 0, none, none, some 5, 0, 0, 0⟩ ⟨2, 1, none, none, some 3, 1, 1, 1⟩
    rfl rfl rfl rfl
  exact ⟨h.1, h.2.1⟩

/-- C10: Upserting a record pointer row onto an existing row with the same
id overwrites only `avro_blob_id`, `avro_blob_start`, `avro_blob_end`,
`diaobject_id` and `ssobject_id`; the stored `midpointMjdTai`, `ra`, `dec` and
`hpx` keep the earlier ingestion's values, and every other row is untouched. -/
theorem insert_alerts_overwrites_pointer_fields_only (tbl : Int → Option Alert)
    (old r : Alert) (hid : r.id = old.id) (hold : tbl old.id = some old) :
    (∃ merged, insert_alerts tbl r old.id = some merged
      ∧ merged.id = old.id
      ∧ merged.midpointMjdTai = old.midpointMjdTai
      ∧ merged.ra = old.ra
      ∧ merged.dec = old.dec
      ∧ merged.hpx = old.hpx
      ∧ merged.avro_blob_id = r.avro_blob_id
      ∧ merged.avro_blob_start = r.avro_blob_start
      ∧ merged.avro_blob_end = r.avro_blob_end
      ∧ merged.diaobject_id = r.diaobject_id
      ∧ merged.ssobject_id = r.ssobject_id)
    ∧ (∀ j, j ≠ old.id → insert_alerts tbl r j = tbl j) := by
  constructor
  · refine ⟨{ old with
        avro_blob_id := r.avro_blob_id
        avro_blob_start := r.avro_blob_start
        avro_blob_end := r.avro_blob_end
        diaobject_id := r.diaobject_id
        ssobject_id := r.ssobject_id }, ?_, rfl, rfl, rfl, rfl, rfl, rfl, rfl, rfl, rfl, rfl⟩
    simp [insert_alerts, hid, hold]
  · intro j hj
    simp [insert_alerts, hid, hj]

/-- Closed witness for the pointer-field-only upsert at concrete rows. -/
theorem insert_alerts_overwrites_pointer_fields_only_witness :
    (∃ merged, insert_alerts
        (fun i => if i = 7 then some ⟨7, some 1, none, 10, 11, 12, 13, 100, 0, 19⟩ else none)
        ⟨7, some 2, some 3, 20, 21, 22, 23, 200, 19, 38⟩ 7 = some merged
      ∧ merged.id = 7
      ∧ merged.midpointMjdTai = 10
      ∧ merged.ra = 11
      ∧ merged.dec = 12
      ∧ merged.hpx = 13
      ∧ merged.avro_blob_id = 200
      ∧ merged.avro_blob_start = 19
      ∧ merged.avro_blob_end = 38
      ∧ merged.diaobject_id = some 2
      ∧ merged.ssobject_id = some 3)
    ∧ (∀ j, j ≠ (7 : Int) → insert_alerts
        (fun i => if i = 7 then some ⟨7, some 1, none, 10, 11, 12, 13, 100, 0, 19⟩ else none)
        ⟨7, some 2, some 3, 20, 21, 22, 23, 200, 19, 38⟩ j
      = if j = 7 then some ⟨7, some 1, none, 10, 11, 12, 13, 100, 0, 19⟩ else none) :=
  insert_alerts_overwrites_pointer_fields_only
    (fun i => if i = 7 then some ⟨7, some 1, none, 10, 11, 12, 13, 100, 0, 19⟩ else none)
    ⟨7, some 1, none, 10, 11, 12, 13, 100, 0, 19⟩
    ⟨7, some 2, some 3, 20, 21, 22, 23, 200, 19, 38⟩ rfl (by simp)

theorem handleMessage_open (chunk_size : Nat)
    (buffers : String × Nat → Option (PartitionBuffer ρ))
    (msg : KMessage ρ) (now : Int)
    (hnone : buffers (msg.topic, msg.partition) = none) :
    handleMessage chunk_size buffers msg now
      = (fun k => if k = (msg.topic, msg.partition)
          then some ⟨[msg.record], msg.schema_id, msg.schema_str, msg.offset, msg.offset, now⟩
          else buffers k,
         none) := by
  rw [handleMessage]
  simp only [hnone]

theorem handleMessage_flush (chunk_size : Nat)
    (buffers : String × Nat → Option (PartitionBuffer ρ))
    (msg : KMessage ρ) (now : Int) (b : PartitionBuffer ρ)
    (hb : buffers (msg.topic, msg.partition) = some b)
    (hcond : chunk_size ≤ b.records.length ∨ b.schema_id ≠ msg.schema_id) :
    handleMessage chunk_size buffers msg now
      = (fun k => if k = (msg.topic, msg.partition)
          then some ⟨[msg.record], msg.schema_id, msg.schema_str, msg.offset, msg.offset, now⟩
          else buffers k,
         some (flushChunk (msg.topic, msg.partition) b)) := by
  rw [handleMessage]
  simp only [hb, if_pos hcond, if_pos rfl]
  refine Prod.ext ?_ rfl
  funext k
  by_cases hk : k = (msg.topic, msg.partition) <;> simp [hk]

theorem handleMessage_append (chunk_size : Nat)
    (buffers : String × Nat → Option (PartitionBuffer ρ))
    (msg : KMessage ρ) (now : Int) (b : PartitionBuffer ρ)
    (hb : buffers (msg.topic, msg.partition) = some b)
    (hcond : ¬ (chunk_size ≤ b.records.length ∨ b.schema_id ≠ msg.schema_id)) :
    handleMessage chunk_size buffers msg now
      = (fun k => if k = (msg.topic, msg.partition)
          then some { b with
            records := b.records ++ [msg.record]
            end_offset := msg.offset
            last_seen := now }
          else buffers k,
         none) := by
  rw [handleMessage]
  simp only [hb, if_neg hcond]

/-- C6: For every delivered message exactly one transition happens: with no
buffer for the message's partition, a fresh buffer holding it is opened; with a
buffer that reached the flush threshold or whose schema id differs, that buffer
is flushed and a fresh buffer holding the message replaces it; otherwise the
message is appended and the buffer's end-offset and activity timestamp advance.
In every case the delivered message ends up in the partition's buffer, and no
other partition's buffer changes. -/
theorem handleMessage_transitions (chunk_size : Nat)
    (buffers : String × Nat → Option (PartitionBuffer ρ))
    (msg : KMessage ρ) (now : Int) :
    (buffers (msg.topic, msg.partition) = none →
      handleMessage chunk_size buffers msg now
        = (fun k => if k = (msg.topic, msg.partition)
            then some ⟨[msg.record], msg.schema_id, msg.schema_str, msg.offset, msg.offset, now⟩
            else buffers k,
           none))
    ∧ (∀ b, buffers (msg.topic, msg.partition) = some b →
        (chunk_size ≤ b.records.length ∨ b.schema_id ≠ msg.schema_id) →
        handleMessage chunk_size buffers msg now
          = (fun k => if k = (msg.topic, msg.partition)
              then some ⟨[msg.record], msg.schema_id, msg.schema_str, msg.offset, msg.offset, now⟩
              else buffers k,
             some (flushChunk (msg.topic, msg.partition) b)))
    ∧ (∀ b, buffers (msg.topic, msg.partition) = some b →
        ¬ (chunk_size ≤ b.records.length ∨ b.schema_id ≠ msg.schema_id) →
        handleMessage chunk_size buffers msg now
          = (fun k => if k = (msg.topic, msg.partition)
              then some { b with
                records := b.records ++ [msg.record]
                end_offset := msg.offset
                last_seen := now }
              else buffers k,
             none))
    ∧ (∃ b2, (handleMessage chunk_size buffers msg now).1 (msg.topic, msg.partition) = some b2
        ∧ msg.record ∈ b2.records) := by
  refine ⟨handleMessage_open chunk_size buffers msg now,
    fun b => handleMessage_flush chunk_size buffers msg now b,
    fun b => handleMessage_append chunk_size buffers msg now b, ?_⟩
  cases hb : buffers (msg.topic, msg.partition) with
  | none =>
    rw [handleMessage_open chunk_size buffers msg now hb]
    exact ⟨⟨[msg.record], msg.schema_id, msg.schema_str, msg.offset, msg.offset, now⟩,
      by simp, by simp⟩
  | some b =>
    by_cases hcond : chunk_size ≤ b.records.length ∨ b.schema_id ≠ msg.schema_id
    · rw [handleMessage_flush chunk_size buffers msg now b hb hcond]
      exact ⟨⟨[msg.record], msg.schema_id, msg.schema_str, msg.offset, msg.offset, now⟩,
        by simp, by simp⟩
    · rw [handleMessage_append chunk_size buffers msg now b hb hcond]
      exact ⟨{ b with
          records := b.records ++ [msg.record]
          end_offset := msg.offset
          last_seen := now },
        by simp, by simp⟩

/-- Compensating delete of a freshly put object restores the store, hence the
whole state. -/
theorem compensated_state_eq (st : ArchiveState) (name : String) (blob : List Nat)
    (h : st.store name = none) :
    (⟨deleteObject (putObject st.store name blob) name, st.db⟩ : ArchiveState) = st := by
  have hfun : deleteObject (putObject st.store name blob) name = st.store := by
    funext k
    by_cases hk : k = name
    · subst hk; simp [deleteObject, h]
    · simp [deleteObject, putObject, hk]
  rw [hfun]

/-- C1: For every failure injected after the object-store write — the blob
row flush, any of the three upsert statements, the final flush, or the
transaction commit — `insert_alert_chunk` deletes the just-written object
before propagating the error, commits nothing to the index (no record pointer
rows from the ingest remain), does not run the completion callback, and, when
the destination key was previously absent, leaves the state exactly as it
was. -/
theorem insert_alert_chunk_compensates (S : Serializer LSSTAlert) (C : Codec)
    (header sync : List Nat) (lonlatToHealpix : ℚ → ℚ → Nat) (nextBlobId : Int)
    (fp : FailPoint) (st : ArchiveState) (schema_id : Nat) (key : String)
    (alerts : List LSSTAlert)
    (hs : schema_id ∈ st.db.schemas)
    (h1 : fp ≠ .schemaMissing) (h2 : fp ≠ .objectPut) :
    (insert_alert_chunk S C header sync lonlatToHealpix nextBlobId (some fp) st
        schema_id key alerts).error = some fp
    ∧ (insert_alert_chunk S C header sync lonlatToHealpix nextBlobId (some fp) st
        schema_id key alerts).state.db = st.db
    ∧ (insert_alert_chunk S C header sync lonlatToHealpix nextBlobId (some fp) st
        schema_id key alerts).state.store (key ++ ".avro") = none
    ∧ (insert_alert_chunk S C header sync lonlatToHealpix nextBlobId (some fp) st
        schema_id key alerts).completed = false
    ∧ (st.store (key ++ ".avro") = none →
        (insert_alert_chunk S C header sync lonlatToHealpix nextBlobId (some fp) st
          schema_id key alerts).state = st) := by
  cases fp with
  | schemaMissing => exact absurd rfl h1
  | objectPut => exact absurd rfl h2
  | blobFlush =>
    refine ⟨by simp [insert_alert_chunk, hs], by simp [insert_alert_chunk, hs],
      by simp [insert_alert_chunk, hs, deleteObject], by simp [insert_alert_chunk, hs], ?_⟩
    intro hfresh
    simp only [insert_alert_chunk, if_pos hs]
    simp only [reduceCtorEq, Option.some.injEq, reduceIte, if_pos rfl]
    exact compensated_state_eq st (key ++ ".avro") _ hfresh
  | diaInsert =>
    refine ⟨by simp [insert_alert_chunk, hs], by simp [insert_alert_chunk, hs],
      by simp [insert_alert_chunk, hs, deleteObject], by simp [insert_alert_chunk, hs], ?_⟩
    intro hfresh
    simp only [insert_alert_chunk, if_pos hs]
    simp only [reduceCtorEq, Option.some.injEq, reduceIte, if_pos rfl]
    exact compensated_state_eq st (key ++ ".avro") _ hfresh
  | ssInsert =>
    refine ⟨by simp [insert_alert_chunk, hs], by simp [insert_alert_chunk, hs],
      by simp [insert_alert_chunk, hs, deleteObject], by simp [insert_alert_chunk, hs], ?_⟩
    intro hfresh
    simp only [insert_alert_chunk, if_pos hs]
    simp only [reduceCtorEq, Option.some.injEq, reduceIte, if_pos rfl]
    exact compensated_state_eq st (key ++ ".avro") _ hfresh
  | alertInsert =>
    refine ⟨by simp [insert_alert_chunk, hs], by simp [insert_alert_chunk, hs],
      by simp [insert_alert_chunk, hs, deleteObject], by simp [insert_alert_chunk, hs], ?_⟩
    intro hfresh
    simp only [insert_alert_chunk, if_pos hs]
    simp only [reduceCtorEq, Option.some.injEq, reduceIte, if_pos rfl]
    exact compensated_state_eq st (key ++ ".avro") _ hfresh
  | finalFlush =>
    refine ⟨by simp [insert_alert_chunk, hs], by simp [insert_alert_chunk, hs],
      by simp [insert_alert_chunk, hs, deleteObject], by simp [insert_alert_chunk, hs], ?_⟩
    intro hfresh
    simp only [insert_alert_chunk, if_pos hs]
    simp only [reduceCtorEq, Option.some.injEq, reduceIte, if_pos rfl]
    exact compensated_state_eq st (key ++ ".avro") _ hfresh
  | txCommit =>
    refine ⟨by simp [insert_alert_chunk, hs], by simp [insert_alert_chunk, hs],
      by simp [insert_alert_chunk, hs, deleteObject], by simp [insert_alert_chunk, hs], ?_⟩
    intro hfresh
    simp only [insert_alert_chunk, if_pos hs]
    simp only [reduceCtorEq, Option.some.injEq, reduceIte, if_pos rfl]
    exact compensated_state_eq st (key ++ ".avro") _ hfresh

/-- Closed witness for the compensating dual write: a failure injected at the
record-pointer upsert against a fresh key and an empty index leaves the state
untouched. -/
theorem insert_alert_chunk_compensates_witness :
    (insert_alert_chunk trivAlertSerializer idCodec hdr0 sync0 (fun _ _ => 0) 1
        (some .alertInsert) archiveStateW 900 "k" [alertW]).error = some .alertInsert
    ∧ (insert_alert_chunk trivAlertSerializer idCodec hdr0 sync0 (fun _ _ => 0) 1
        (some .alertInsert) archiveStateW 900 "k" [alertW]).state.db = archiveStateW.db
    ∧ (insert_alert_chunk trivAlertSerializer idCodec hdr0 sync0 (fun _ _ => 0) 1
        (some .alertInsert) archiveStateW 900 "k" [alertW]).state.store ("k" ++ ".avro") = none
    ∧ (insert_alert_chunk trivAlertSerializer idCodec hdr0 sync0 (fun _ _ => 0) 1
        (some .alertInsert) archiveStateW 900 "k" [alertW]).completed = false
    ∧ (archiveStateW.store ("k" ++ ".avro") = none →
        (insert_alert_chunk trivAlertSerializer idCodec hdr0 sync0 (fun _ _ => 0) 1
          (some .alertInsert) archiveStateW 900 "k" [alertW]).state = archiveStateW) :=
  insert_alert_chunk_compensates trivAlertSerializer idCodec hdr0 sync0 (fun _ _ => 0) 1
    .alertInsert archiveStateW 900 "k" [alertW] (by decide) (by decide) (by decide)

/-- Closed witness for the ingestor transition at a concrete message against an
empty buffer map. -/
theorem handleMessage_transitions_witness :
    handleMessage 2 (fun _ => none)
        (⟨"topic", 0, 42, 900, "s", (5 : Nat)⟩ : KMessage Nat) 17
      = (fun k => if k = ("topic", 0)
          then some ⟨[5], 900, "s", 42, 42, 17⟩
          else none,
         none) :=
  (handleMessage_transitions 2 (fun _ => none) ⟨"topic", 0, 42, 900, "s", 5⟩ 17).1 rfl

/-- The Boolean row predicate of the claim query, as a proposition. -/
theorem claim_pred_eq (locked : List Int) (group_id : Int) (r : ResultBlob) :
    claimPred locked group_id r = true
      ↔ (r.group_id = group_id ∧ r.issued = none ∧ r.id ∉ locked) := by
  simp [claimPred, Option.isNone_iff_eq_none, and_assoc]

/-- C8: The chunk claim protocol: a claim selects one chunk of the group
with null `issued` outside the row-locked set and stamps it with the current
time, or yields nothing exactly when no such chunk exists; release clears
`issued`, and for a group whose only chunk was released a subsequent claim
returns that chunk again; delete removes the chunk's object from the store and
its row, after which no claim ever returns it. -/
theorem stream_claim_protocol (locked : List Int) (now now2 : Int)
    (st : StreamsState) (group_id : Int) :
    ((stream_claim_chunk locked now st group_id).1 = none ↔
      ∀ r ∈ st.rows, ¬ (r.group_id = group_id ∧ r.issued = none ∧ r.id ∉ locked))
    ∧ (∀ r, (stream_claim_chunk locked now st group_id).1 = some r →
        r.group_id = group_id ∧ r.issued = some now ∧
        ∃ r0 ∈ st.rows, r0.group_id = group_id ∧ r0.issued = none ∧ r0.id ∉ locked ∧
          r = { r0 with issued := some now })
    ∧ (∀ i : Int, ∀ q ∈ (stream_release_chunk st i).rows, q.id = i → q.issued = none)
    ∧ (∀ r : ResultBlob, st.rows = [r] → r.group_id = group_id →
        (stream_claim_chunk [] now2 (stream_release_chunk st r.id) group_id).1
          = some { r with issued := some now2 })
    ∧ (∀ (i : Int) (b : ResultBlob),
        st.rows.find? (fun q => decide (q.id = i)) = some b →
        (stream_delete_chunk st i).store b.uri = none)
    ∧ (∀ (i g : Int) (r : ResultBlob),
        (stream_claim_chunk locked now2 (stream_delete_chunk st i) g).1 = some r →
        r.id ≠ i) := by
  refine ⟨?_, ?_, ?_, ?_, ?_, ?_⟩
  · cases hf : st.rows.find? (claimPred locked group_id) with
    | none =>
      simp only [stream_claim_chunk, hf]
      constructor
      · intro _ r hr hand
        have hnp := List.find?_eq_none.mp hf r hr
        exact hnp ((claim_pred_eq locked group_id r).mpr hand)
      · intro _; trivial
    | some r0 =>
      simp only [stream_claim_chunk, hf]
      constructor
      · intro h; cases h
      · intro hall
        exfalso
        have hp0 : claimPred locked group_id r0 = true := List.find?_some hf
        have hp := (claim_pred_eq locked group_id r0).mp hp0
        exact hall r0 (List.mem_of_find?_eq_some hf) hp
  · intro r hr
    cases hf : st.rows.find? (claimPred locked group_id) with
    | none => simp [stream_claim_chunk, hf] at hr
    | some r0 =>
      simp only [stream_claim_chunk, hf, Option.some.injEq] at hr
      have hp0 : claimPred locked group_id r0 = true := List.find?_some hf
      have hp := (claim_pred_eq locked group_id r0).mp hp0
      subst hr
      exact ⟨hp.1, rfl, r0, List.mem_of_find?_eq_some hf, hp.1, hp.2.1, hp.2.2, rfl⟩
  · intro i q hq hid
    rw [stream_release_chunk] at hq
    obtain ⟨q0, _, hq0⟩ := List.mem_map.mp hq
    by_cases h0 : q0.id = i
    · rw [if_pos h0] at hq0
      rw [← hq0]
    · rw [if_neg h0] at hq0
      subst hq0
      exact absurd hid h0
  · intro r hst hrg
    simp [stream_claim_chunk, stream_release_chunk, hst, hrg, claimPred]
  · intro i b hf
    simp [stream_delete_chunk, hf, deleteObject]
  · intro i g r hclaim
    cases hf2 : (stream_delete_chunk st i).rows.find? (claimPred locked g) with
    | none => simp [stream_claim_chunk, hf2] at hclaim
    | some r0 =>
      simp only [stream_claim_chunk, hf2, Option.some.injEq] at hclaim
      have hmem := List.mem_of_find?_eq_some hf2
      have hid : r.id = r0.id := by rw [← hclaim]
      rw [hid]
      rw [stream_delete_chunk] at hmem
      cases hfd : st.rows.find? (fun q => decide (q.id = i)) with
      | none =>
        rw [hfd] at hmem
        intro hri
        have := List.find?_eq_none.mp hfd r0 hmem
        simp [hri] at this
      | some bdel =>
        rw [hfd] at hmem
        simp only at hmem
        have := (List.mem_filter.mp hmem).2
        simpa using this

/-- Closed witness for the claim protocol on a one-chunk group. -/
theorem stream_claim_protocol_witness :
    ((stream_claim_chunk [] 10 ⟨[⟨1, 900, 5, "u", 2, 64, none⟩],
        fun k => if k = "u" then some [0] else none⟩ 5).1 = none ↔
      ∀ r ∈ ([⟨1, 900, 5, "u", 2, 64, none⟩] : List ResultBlob),
        ¬ (r.group_id = 5 ∧ r.issued = none ∧ r.id ∉ ([] : List Int)))
    ∧ (∀ r, (stream_claim_chunk [] 10 ⟨[⟨1, 900, 5, "u", 2, 64, none⟩],
          fun k => if k = "u" then some [0] else none⟩ 5).1 = some r →
        r.group_id = 5 ∧ r.issued = some 10 ∧
        ∃ r0 ∈ ([⟨1, 900, 5, "u", 2, 64, none⟩] : List ResultBlob),
          r0.group_id = 5 ∧ r0.issued = none ∧ r0.id ∉ ([] : List Int) ∧
          r = { r0 with issued := some 10 })
    ∧ (∀ i : Int, ∀ q ∈ (stream_release_chunk ⟨[⟨1, 900, 5, "u", 2, 64, none⟩],
        fun k => if k = "u" then some [0] else none⟩ i).rows, q.id = i → q.issued = none)
    ∧ (∀ r : ResultBlob, ([⟨1, 900, 5, "u", 2, 64, none⟩] : List ResultBlob) = [r] →
        r.group_id = 5 →
        (stream_claim_chunk [] 20 (stream_release_chunk ⟨[⟨1, 900, 5, "u", 2, 64, none⟩],
          fun k => if k = "u" then some [0] else none⟩ r.id) 5).1
          = some { r with issued := some 20 })
    ∧ (∀ (i : Int) (b : ResultBlob),
        ([⟨1, 900, 5, "u", 2, 64, none⟩] : List ResultBlob).find?
            (fun q => decide (q.id = i)) = some b →
        (stream_delete_chunk ⟨[⟨1, 900, 5, "u", 2, 64, none⟩],
          fun k => if k = "u" then some [0] else none⟩ i).store b.uri = none)
    ∧ (∀ (i g : Int) (r : ResultBlob),
        (stream_claim_chunk [] 20 (stream_delete_chunk ⟨[⟨1, 900, 5, "u", 2, 64, none⟩],
          fun k => if k = "u" then some [0] else none⟩ i) g).1 = some r →
        r.id ≠ i) :=
  stream_claim_protocol [] 10 20
    ⟨[⟨1, 900, 5, "u", 2, 64, none⟩], fun k => if k = "u" then some [0] else none⟩ 5

/-- C9: `cone_search_condition` selects exactly the stored points within
the cone: the scaled cell-id range disjunction, built from the spec-modelled
`ranges_for_cone` output, over-approximates the cone (no false negatives,
using the nested-hierarchy relation between the chosen resolution and the
storage resolution), and the conjoined exact-distance predicate removes every
false positive. -/
theorem cone_search_condition_exact (Point : Type) (cellIdAt : Nat → Point → Nat)
    (withinRadius : Point → Bool)
    (cr : RangesForCone Point cellIdAt withinRadius)
    (hnested : ∀ p, cellIdAt cr.nside p = cellIdAt NSIDE p / ((NSIDE / cr.nside) ^ 2))
    (stored : List Point) :
    stored.filter (cone_search_condition cr.nside cr.ranges withinRadius (cellIdAt NSIDE))
      = stored.filter withinRadius := by
  apply List.filter_congr
  intro p _
  cases hw : withinRadius p with
  | false => simp [cone_search_condition, hw]
  | true =>
    simp only [cone_search_condition, hw, Bool.and_true]
    obtain ⟨lr, hlr, h1, h2⟩ := cr.covers p hw
    have hscale : 0 < (NSIDE / cr.nside) ^ 2 := by
      have hdiv : 0 < NSIDE / cr.nside :=
        Nat.div_pos (Nat.le_of_dvd (by norm_num [NSIDE]) cr.nside_dvd) cr.nside_pos
      positivity
    rw [List.any_eq_true]
    refine ⟨lr, hlr, ?_⟩
    rw [hnested p] at h1 h2
    have hle : lr.1 * (NSIDE / cr.nside) ^ 2 ≤ cellIdAt NSIDE p :=
      (Nat.le_div_iff_mul_le hscale).mp h1
    have hlt : cellIdAt NSIDE p < lr.2 * (NSIDE / cr.nside) ^ 2 :=
      (Nat.div_lt_iff_lt_mul hscale).mp h2
    simp [hle, hlt]

/-- Closed witness for the cone-search condition at a concrete synthetic grid:
cell ids are the points themselves at storage resolution, the cone is
`p < 3`, and a single covering range `[0, 3)` at the storage resolution. -/
theorem cone_search_condition_exact_witness :
    ([0, 1, 2, 3, 4, 10] : List Nat).filter
        (cone_search_condition NSIDE [(0, 3)] (fun p => decide (p < 3))
          (fun p => p / ((NSIDE / NSIDE) ^ 2)))
      = [0, 1, 2] := by
  refine Eq.trans (cone_search_condition_exact Nat (fun n p => p / ((NSIDE / n) ^ 2))
    (fun p => decide (p < 3))
    ⟨NSIDE, [(0, 3)], by norm_num [NSIDE], dvd_refl NSIDE, ?_⟩ ?_ [0, 1, 2, 3, 4, 10])
    (by decide)
  · intro p hp
    have hp3 : p < 3 := by simpa using hp
    have hcell : p / ((NSIDE / NSIDE) ^ 2) = p := by norm_num [NSIDE]
    refine ⟨(0, 3), by simp, ?_, ?_⟩
    · exact Nat.zero_le _
    · rw [hcell]; exact hp3
  · intro p
    norm_num [NSIDE]

end ArchiveSpec
